import Mathlib

/-!
Verification of `examples/osrt_cpp/tfl/segmentation.cpp`.

A shallow embedding of the two parts of the segmentation example that carry
behaviour of their own:

* `blendSegMask`, the in-place alpha blend of a class map into an RGB frame
  (source lines 105-164);
* the part of `RunInference` that follows `AllocateTensors` (source lines
  253-357): shared-memory acquisition, image pre-processing, warm-up and timed
  invocations, blending, image write and shared-memory release, embedded as a
  function from the answers of the external collaborators to the trace of
  calls the function makes.

Number model:

* `uint8_t` values are naturals, every store into a `uint8_t` is an explicit
  `% 256`.
* `int32_t` class ids are integers; products with a class id are wrapped to 32
  bits (`wrap32`) before the conversion to `uint8_t`.
* image and map dimensions are naturals (the loops of `blendSegMask` only run
  for positive bounds, and all coordinates are non-negative); the products
  `h * inDataHeight` etc. are assumed to fit `int32_t`.
* `float` is IEEE-754 binary32 with round-to-nearest-even.  A non-negative
  finite binary32 value is a multiple of `2^-149`; such a value `v` is held as
  the natural number `v * 2^149` ("units").  `1.0f` is `f32One = 2^149`,
  `0.5f` is `2^148`.  The exact product or difference of two values is
  again a whole number of units, and `roundF32` rounds it to the nearest
  binary32 value.
-/

namespace tflite.seg_image

/-! ## binary32 arithmetic on units of `2^-149` -/

/-- The binary32 value `1.0f` in units of `2^-149`. -/
def f32One : Nat := 2 ^ 149

/-- The number of low bits a binary32 significand cannot hold: how many times
`n` is halved until it falls below `2^24` (`⌊log2 n⌋ - 23` for `n ≥ 2^24`, else
`0`).  The first argument bounds the number of halvings; `n` itself is always
enough. -/
def dropBits : Nat → Nat → Nat
  | 0, _ => 0
  | fuel + 1, n => if n < 2 ^ 24 then 0 else dropBits fuel (n / 2) + 1

/-- Round-to-nearest-even of the non-negative real `n * 2^-149` to binary32, in
units of `2^-149`.  The significand keeps 24 bits: the `sh = dropBits n n` low
bits are rounded away, ties going to the even significand; values below `2^24`
units (subnormals and the first normal binades) are exact.  (Overflow to
infinity, above `2^277` units, is out of the range used here.) -/
def roundF32 (n : Nat) : Nat :=
  let sh := dropBits n n
  let q := n / 2 ^ sh
  let r := n % 2 ^ sh
  if 2 * r < 2 ^ sh then q * 2 ^ sh
  else if 2 * r = 2 ^ sh then (if q % 2 = 0 then q else q + 1) * 2 ^ sh
  else (q + 1) * 2 ^ sh

/-- Conversion `float -> uint8_t` of a non-negative value: truncation toward
zero, then the 8-bit store. -/
def truncU8 (n : Nat) : Nat := (n / f32One) % 256

/-- Line 125: `a = alpha * 255;` (`255` converts to `255.0f` exactly, the
product is rounded to binary32 and truncated into the `uint8_t a`). -/
def weightA (alpha : Nat) : Nat := truncU8 (roundF32 (alpha * 255))

/-- Line 126: `sa = (1 - alpha) * 255;` for `alpha <= 1.0f`: the difference is
rounded to binary32, then the product is, then the truncation into the
`uint8_t sa`. -/
def weightSA (alpha : Nat) : Nat :=
  truncU8 (roundF32 (roundF32 (f32One - alpha) * 255))

/-! ## `blendSegMask` -/

/-- Two's-complement wrap of an integer to `int32_t`. -/
def wrap32 (x : Int) : Int := (x + 2 ^ 31) % 2 ^ 32 - 2 ^ 31

/-- Lines 150-152: `r_m = 10 * class_id; g_m = 20 * class_id; b_m = 30 * class_id;`
for channel `k = 0, 1, 2`: the `int32_t` product stored into a `uint8_t`. -/
def maskColor (k : Nat) (class_id : Int) : Nat :=
  match k with
  | 0 => (wrap32 (10 * class_id) % 256).toNat
  | 1 => (wrap32 (20 * class_id) % 256).toNat
  | _ => (wrap32 (30 * class_id) % 256).toNat

/-- The `int` expression of lines 155-157, `((r * a) + (r_m * sa)) / 255`,
before it is stored. -/
def blendValue (a sa orig mask : Nat) : Nat := (orig * a + mask * sa) / 255

/-- Lines 155-157: the value stored into the `uint8_t` frame channel. -/
def blendChannel (a sa orig mask : Nat) : Nat := blendValue a sa orig mask % 256

/-- Lines 131, 137, 146: the class-map index read for output pixel `(w, h)`:
`sh = h * inDataHeight / outDataHeight`, `sw = w * inDataWidth / outDataWidth`,
`index = sh * inDataHeight + sw`. -/
def classIndex (inDataWidth inDataHeight outDataWidth outDataHeight w h : Nat) : Nat :=
  let sh := h * inDataHeight / outDataHeight
  let sw := w * inDataWidth / outDataWidth
  sh * inDataHeight + sw

/-- The body of the inner loop (lines 136-159) run for the `n` columns
`w, w+1, ..., w+n-1` of row `h`, with `ptr` the offset of the current pixel in
the frame.  A read outside the frame or outside the class map yields `none`. -/
def blendRow (classes : List Int) (inDataWidth inDataHeight outDataWidth outDataHeight : Nat)
    (a sa h : Nat) : Nat → Nat → Nat → List Nat → Option (List Nat)
  | 0, _, _, frame => some frame
  | n + 1, w, ptr, frame => do
    let r ← frame[ptr]?
    let g ← frame[ptr + 1]?
    let b ← frame[ptr + 2]?
    let index := classIndex inDataWidth inDataHeight outDataWidth outDataHeight w h
    let class_id ← classes[index]?
    let r_m := maskColor 0 class_id
    let g_m := maskColor 1 class_id
    let b_m := maskColor 2 class_id
    let frame := frame.set ptr (blendChannel a sa r r_m)
    let frame := frame.set (ptr + 1) (blendChannel a sa g g_m)
    let frame := frame.set (ptr + 2) (blendChannel a sa b b_m)
    blendRow classes inDataWidth inDataHeight outDataWidth outDataHeight a sa h n (w + 1) (ptr + 3) frame

/-- The outer loop (lines 129-161) run for the `n` rows `h, h+1, ..., h+n-1`;
each row starts at `ptr = frame + h * (outDataWidth * 3)`. -/
def blendRows (classes : List Int) (inDataWidth inDataHeight outDataWidth outDataHeight : Nat)
    (a sa : Nat) : Nat → Nat → List Nat → Option (List Nat)
  | 0, _, frame => some frame
  | n + 1, h, frame => do
    let frame ← blendRow classes inDataWidth inDataHeight outDataWidth outDataHeight a sa h
      outDataWidth 0 (h * (outDataWidth * 3)) frame
    blendRows classes inDataWidth inDataHeight outDataWidth outDataHeight a sa n (h + 1) frame

/-- `blendSegMask(frame, classes, inDataWidth, inDataHeight, outDataWidth,
outDataHeight, alpha)` (lines 105-164), for `alpha` in `[0, 1]` given in units
of `2^-149`: the frame after the in-place update, or `none` when a read falls
outside the frame or the class map. -/
def blendSegMask (frame : List Nat) (classes : List Int)
    (inDataWidth inDataHeight outDataWidth outDataHeight : Nat) (alpha : Nat) :
    Option (List Nat) :=
  blendRows classes inDataWidth inDataHeight outDataWidth outDataHeight
    (weightA alpha) (weightSA alpha) outDataHeight 0 frame

/-- The blend formula as the specification words it (section 4.4): rounding of
`x / d` to the nearest integer.  (Halves go up; with `d = 255` no half occurs,
and `alpha * 255 = 127.5` rounds to `128` under either tie rule.) -/
def specRound (x d : Nat) : Nat := (2 * x + d) / (2 * d)

/-- The blend formula as the specification words it (section 4.4):
`out = round((orig*a + classColor*(255-a)) / 255)` with `a = round(alpha*255)`;
`alpha` in units of `2^-149`. -/
def specBlend (alpha orig classColor : Nat) : Nat :=
  let a := specRound (alpha * 255) f32One
  specRound (orig * a + classColor * (255 - a)) 255

/-! ## `RunInference`, lines 253-357

The function is embedded from the point where the tensors are allocated.  The
external collaborators (shared-memory allocator, image reader, interpreter)
are given by their answers, and the function yields the trace of the calls it
makes. -/

/-- The element type of the input tensor, as far as the `switch` of lines
288-299 tells types apart. -/
inductive TfLiteType
  | kTfLiteFloat32
  | kTfLiteUInt8
  | other
  deriving DecidableEq, Repr

/-- Modelled from the spec: the declaration of `Settings` (`segmentation.h`) is
not among the sources; these are the fields that lines 253-357 read
(configuration options zero-copy, loop count and warmup count). -/
structure Settings where
  device_mem : Int
  loop_count : Int
  number_of_warmup_runs : Int
  deriving Repr

/-- The answers of the external collaborators during one run. -/
structure Runtime where
  /-- The value of `inputs.size()` (at most 16, the size of `in_ptrs`). -/
  inputs : Nat
  /-- The value of `outputs.size()` (at most 16, the size of `out_ptrs`). -/
  outputs : Nat
  /-- What `TIDLRT_allocSharedMem` returns for input slot `i`: `none` is `NULL`. -/
  allocIn : Nat → Option Nat
  /-- What `TIDLRT_allocSharedMem` returns for output slot `i`: `none` is `NULL`. -/
  allocOut : Nat → Option Nat
  /-- The value of `interpreter->tensor(input)->type`. -/
  inputType : TfLiteType
  /-- Whether `image.channels() == wanted_channels` in `preprocImage`. -/
  channelsOk : Bool
  /-- Whether the `k`-th call of `interpreter->Invoke()` returns `kTfLiteOk`. -/
  invokeOk : Nat → Bool

/-- The calls `RunInference` makes that are visible from outside. -/
inductive Event
  /-- A call of `TIDLRT_allocSharedMem` and what it returned. -/
  | allocSharedMem (result : Option Nat)
  /-- A call of `SetCustomAllocationForTensor` with the given pointer. -/
  | setCustomAllocation (ptr : Option Nat)
  /-- The statement `LOG(FATAL) << ...`; line 59 defines `LOG(x)` as `std::cerr`,
  so it prints and returns. -/
  | logFatal
  /-- The call of `preprocImage`. -/
  | preprocImage
  /-- A call of `interpreter->Invoke()` and whether it returned `kTfLiteOk`. -/
  | invoke (ok : Bool)
  /-- A call of `gettimeofday`. -/
  | gettimeofday
  /-- The call of `blendSegMask` on the image and the output tensor. -/
  | blendSegMask
  /-- The call of `cv::imwrite`. -/
  | imwrite
  /-- A call of `TIDLRT_freeSharedMem` on the given pointer. -/
  | freeSharedMem (ptr : Nat)
  /-- The call `exit(-1)`, which ends the run. -/
  | exit
  deriving DecidableEq, Repr

/-- The loop `for (i = lo; i < lo + n; i++) body(i)`: the trace of its `n`
iterations. -/
def forRange : Nat → Nat → (Nat → List Event) → List Event
  | 0, _, _ => []
  | n + 1, i, body => body i ++ forRange n (i + 1) body

/-- The body of an acquisition loop (lines 257-263 and 267-273) for slot `i`. -/
def allocBody (alloc : Nat → Option Nat) (i : Nat) : List Event :=
  match alloc i with
  | none => [Event.allocSharedMem none, Event.logFatal, Event.setCustomAllocation none]
  | some p => [Event.allocSharedMem (some p), Event.setCustomAllocation (some p)]

/-- The body of a release loop (lines 345-348 and 352-355) for slot `i`;
`in_ptrs[i]` (`out_ptrs[i]`) holds what the acquisition loop stored there. -/
def freeBody (alloc : Nat → Option Nat) (i : Nat) : List Event :=
  match alloc i with
  | none => []
  | some p => [Event.freeSharedMem p]

/-- The body of an invocation loop (lines 305-308 and 315-318); `base + i` is
the number of calls of `Invoke` made before. -/
def invokeBody (invokeOk : Nat → Bool) (base i : Nat) : List Event :=
  if invokeOk (base + i) then [Event.invoke true] else [Event.invoke false, Event.logFatal]

/-- Lines 253-275: the acquisitions of zero-copy mode. -/
def acquirePhase (s : Settings) (rt : Runtime) : List Event :=
  if s.device_mem ≠ 0 then
    forRange rt.inputs 0 (allocBody rt.allocIn) ++ forRange rt.outputs 0 (allocBody rt.allocOut)
  else []

/-- Lines 341-357: the releases of zero-copy mode. -/
def releasePhase (s : Settings) (rt : Runtime) : List Event :=
  if s.device_mem ≠ 0 then
    forRange rt.inputs 0 (freeBody rt.allocIn) ++ forRange rt.outputs 0 (freeBody rt.allocOut)
  else []

/-- The number of warm-up invocations of lines 302-309: the loop is guarded by
`if (s->loop_count > 1)`. -/
def warmupRuns (s : Settings) : Nat :=
  if s.loop_count > 1 then s.number_of_warmup_runs.toNat else 0

/-- Lines 301-338: warm-up invocations, timed invocations between the two
calls of `gettimeofday`, blending and image write. -/
def invokePhase (s : Settings) (rt : Runtime) : List Event :=
  forRange (warmupRuns s) 0 (invokeBody rt.invokeOk 0)
    ++ [Event.gettimeofday]
    ++ forRange s.loop_count.toNat 0 (invokeBody rt.invokeOk (warmupRuns s))
    ++ [Event.gettimeofday, Event.blendSegMask, Event.imwrite]

/-- `RunInference(s)` from line 253 on: the trace of the run. -/
def RunInference (s : Settings) (rt : Runtime) : List Event :=
  match rt.inputType with
  | TfLiteType.other =>
    -- lines 296-298: `default: LOG(FATAL) << ...; exit(-1);`
    acquirePhase s rt ++ [Event.logFatal, Event.exit]
  | _ =>
    if rt.channelsOk then
      acquirePhase s rt ++ [Event.preprocImage] ++ invokePhase s rt ++ releasePhase s rt
    else
      -- lines 79-83, in `preprocImage`: `LOG(FATAL) << ...; exit(-1);`
      acquirePhase s rt ++ [Event.preprocImage, Event.logFatal, Event.exit]

/-- Whether an event is a graph invocation. -/
def Event.isInvoke : Event → Bool
  | Event.invoke _ => true
  | _ => false

/-- Whether an event is a graph invocation or a reading of the clock. -/
def Event.isTiming : Event → Bool
  | Event.invoke _ => true
  | Event.gettimeofday => true
  | _ => false

/-- Whether an event is a successful shared-memory acquisition. -/
def Event.isAcquired : Event → Bool
  | Event.allocSharedMem (some _) => true
  | _ => false

/-- Whether an event is a shared-memory release. -/
def Event.isRelease : Event → Bool
  | Event.freeSharedMem _ => true
  | _ => false

/-! ## Facts about the binary32 model -/

theorem dropBits_pow_le (fuel n : Nat) (h : 0 < dropBits fuel n) :
    2 ^ (23 + dropBits fuel n) ≤ n := by
  induction fuel generalizing n with
  | zero => simp [dropBits] at h
  | succ fuel ih =>
    unfold dropBits at h ⊢
    split_ifs at h ⊢ with hn
    · simp at h
    · by_cases hd : 0 < dropBits fuel (n / 2)
      · have h1 := ih (n / 2) hd
        have h2 : 2 ^ (23 + (dropBits fuel (n / 2) + 1)) = 2 * 2 ^ (23 + dropBits fuel (n / 2)) := by
          rw [← Nat.add_assoc, Nat.pow_succ, Nat.mul_comm]
        rw [h2]
        omega
      · have h0 : dropBits fuel (n / 2) = 0 := by omega
        rw [h0]
        norm_num at hn ⊢
        exact hn

theorem dropBits_div_lt (fuel n : Nat) (h : n ≤ fuel) :
    n / 2 ^ dropBits fuel n < 2 ^ 24 := by
  induction fuel generalizing n with
  | zero =>
    have : n = 0 := by omega
    subst this
    simp [dropBits]
  | succ fuel ih =>
    unfold dropBits
    split_ifs with hn
    · simpa using hn
    · have h1 : n / 2 ≤ fuel := by
        have : 2 ^ 24 ≤ n := by omega
        norm_num at this
        omega
      have h2 := ih (n / 2) h1
      rw [Nat.pow_succ, Nat.mul_comm, ← Nat.div_div_eq_div_mul]
      exact h2

/-- The rounded value is a 24-bit significand times a power of two. -/
theorem roundF32_significand (n : Nat) :
    ∃ q, q ≤ 2 ^ 24 ∧ roundF32 n = q * 2 ^ dropBits n n := by
  have hq := dropBits_div_lt n n (Nat.le_refl n)
  unfold roundF32
  simp only
  split_ifs
  · exact ⟨_, Nat.le_of_lt hq, rfl⟩
  · exact ⟨_, Nat.le_of_lt hq, rfl⟩
  · exact ⟨_, hq, rfl⟩
  · exact ⟨_, hq, rfl⟩

/-- Twice the rounding error is at most one unit in the last place, `2^sh`. -/
theorem roundF32_two_mul (n : Nat) :
    2 * roundF32 n ≤ 2 * n + 2 ^ dropBits n n ∧ 2 * n ≤ 2 * roundF32 n + 2 ^ dropBits n n := by
  have hdm := Nat.div_add_mod n (2 ^ dropBits n n)
  have hpos : 0 < 2 ^ dropBits n n := Nat.pow_pos (by norm_num)
  have hlt := Nat.mod_lt n hpos
  unfold roundF32
  simp only
  generalize 2 ^ dropBits n n = p at *
  generalize hq : n / p = q at *
  generalize hr : n % p = r at *
  have e1 : p * q = q * p := Nat.mul_comm _ _
  have e2 : (q + 1) * p = q * p + p := by ring
  split_ifs <;> omega

/-- Relative error bound of binary32 rounding: at most `2^-24` of the value. -/
theorem roundF32_le (n : Nat) : roundF32 n ≤ n + n / 2 ^ 24 := by
  have h := (roundF32_two_mul n).1
  by_cases hd : 0 < dropBits n n
  · have h1 := dropBits_pow_le n n hd
    obtain ⟨d, hd'⟩ : ∃ d, dropBits n n = d + 1 := ⟨dropBits n n - 1, by omega⟩
    rw [hd'] at h h1
    have h2 : 2 ^ (23 + (d + 1)) = 2 ^ d * 2 ^ 24 := by
      rw [show 23 + (d + 1) = d + 24 by omega, Nat.pow_add]
    have h3 : 2 ^ (d + 1) = 2 * 2 ^ d := by rw [Nat.pow_succ, Nat.mul_comm]
    rw [h2] at h1
    rw [h3] at h
    have h4 : 2 ^ d ≤ n / 2 ^ 24 := (Nat.le_div_iff_mul_le (by norm_num)).2 h1
    omega
  · have h0 : dropBits n n = 0 := by omega
    rw [h0] at h
    norm_num at h
    omega

/-- The two blend weights never add up to more than 255. -/
theorem weights_sum_le (alpha : Nat) (h : alpha ≤ f32One) :
    weightA alpha + weightSA alpha ≤ 255 := by
  have hx := roundF32_le (alpha * 255)
  have hb := roundF32_le (f32One - alpha)
  have hy := roundF32_le (roundF32 (f32One - alpha) * 255)
  unfold weightA weightSA truncU8
  have ha : roundF32 (alpha * 255) / f32One % 256 ≤ roundF32 (alpha * 255) / f32One :=
    Nat.mod_le _ _
  have hsa : roundF32 (roundF32 (f32One - alpha) * 255) / f32One % 256
      ≤ roundF32 (roundF32 (f32One - alpha) * 255) / f32One := Nat.mod_le _ _
  generalize roundF32 (alpha * 255) = X at *
  generalize roundF32 (f32One - alpha) = B at *
  generalize roundF32 (B * 255) = Y at *
  unfold f32One at *
  norm_num at *
  omega

theorem weightA_half : weightA (2 ^ 148) = 127 := by decide!
theorem weightSA_half : weightSA (2 ^ 148) = 127 := by decide!
theorem weightA_one : weightA f32One = 255 := by decide!
theorem weightSA_one : weightSA f32One = 0 := by decide!
theorem weightA_zero : weightA 0 = 0 := by decide!
theorem weightSA_zero : weightSA 0 = 255 := by decide!

/-! ## The loops of `blendSegMask` -/

/-- What `n` iterations of the inner loop do to the frame: the three bytes of
each visited pixel are blended with the colour of the class read at
`classIndex`, every other byte is unchanged. -/
theorem blendRow_spec (classes : List Int) (inW inH outW outH a sa h : Nat) :
    ∀ (n w ptr : Nat) (frame : List Nat), ptr + 3 * n ≤ frame.length →
      (∀ j, j < n → classIndex inW inH outW outH (w + j) h < classes.length) →
      ∃ out, blendRow classes inW inH outW outH a sa h n w ptr frame = some out ∧
        out.length = frame.length ∧
        (∀ i, i < ptr ∨ ptr + 3 * n ≤ i → out[i]? = frame[i]?) ∧
        (∀ j k, j < n → k < 3 → ∃ c orig,
          classes[classIndex inW inH outW outH (w + j) h]? = some c ∧
          frame[ptr + 3 * j + k]? = some orig ∧
          out[ptr + 3 * j + k]? = some (blendChannel a sa orig (maskColor k c))) := by
  intro n
  induction n with
  | zero =>
    intro w ptr frame _ _
    exact ⟨frame, rfl, rfl, fun _ _ => rfl, fun j k hj _ => absurd hj (Nat.not_lt_zero j)⟩
  | succ n ih =>
    intro w ptr frame hlen hcls
    have h0 : ptr < frame.length := by omega
    have h1 : ptr + 1 < frame.length := by omega
    have h2 : ptr + 2 < frame.length := by omega
    have hc : classIndex inW inH outW outH w h < classes.length := by
      simpa using hcls 0 (Nat.succ_pos n)
    obtain ⟨out, hout, hl, hkeep, hpix⟩ := ih (w + 1) (ptr + 3)
      (((frame.set ptr (blendChannel a sa frame[ptr]
          (maskColor 0 classes[classIndex inW inH outW outH w h]))).set (ptr + 1)
          (blendChannel a sa frame[ptr + 1]
            (maskColor 1 classes[classIndex inW inH outW outH w h]))).set (ptr + 2)
          (blendChannel a sa frame[ptr + 2]
            (maskColor 2 classes[classIndex inW inH outW outH w h])))
      (by simp only [List.length_set]; omega)
      (fun j hj => by
        have := hcls (j + 1) (by omega)
        rwa [show w + 1 + j = w + (j + 1) by omega])
    refine ⟨out, ?_, ?_, ?_, ?_⟩
    · rw [blendRow]
      simp only [List.getElem?_eq_getElem h0, List.getElem?_eq_getElem h1,
        List.getElem?_eq_getElem h2, List.getElem?_eq_getElem hc, Option.bind_eq_bind,
        Option.some_bind]
      exact hout
    · simpa only [List.length_set] using hl
    · intro i hi
      rw [hkeep i (by omega)]
      rw [List.getElem?_set_ne (by omega), List.getElem?_set_ne (by omega),
        List.getElem?_set_ne (by omega)]
    · intro j k hj hk
      cases j with
      | zero =>
        have hk0 : ptr + k < frame.length := by omega
        refine ⟨classes[classIndex inW inH outW outH w h], frame[ptr + k], ?_, ?_, ?_⟩
        · simp [List.getElem?_eq_getElem hc]
        · simp only [Nat.mul_zero, Nat.add_zero]
          exact List.getElem?_eq_getElem (by omega)
        · simp only [Nat.mul_zero, Nat.add_zero]
          rw [hkeep (ptr + k) (by omega)]
          obtain rfl | rfl | rfl : k = 0 ∨ k = 1 ∨ k = 2 := by omega
          · rw [List.getElem?_set_ne (by omega), List.getElem?_set_ne (by omega)]
            simp [List.getElem?_set_self h0]
          · rw [List.getElem?_set_ne (by omega)]
            rw [List.getElem?_set_self (by simpa only [List.length_set] using h1)]
          · rw [List.getElem?_set_self (by simpa only [List.length_set] using h2)]
      | succ j =>
        obtain ⟨c, orig, e1, e2, e3⟩ := hpix j k (by omega) hk
        refine ⟨c, orig, ?_, ?_, ?_⟩
        · rwa [show w + (j + 1) = w + 1 + j by omega]
        · rw [show ptr + 3 * (j + 1) + k = ptr + 3 + 3 * j + k by omega, ← e2]
          rw [List.getElem?_set_ne (by omega), List.getElem?_set_ne (by omega),
            List.getElem?_set_ne (by omega)]
        · rw [show ptr + 3 * (j + 1) + k = ptr + 3 + 3 * j + k by omega]
          exact e3

/-- What `n` iterations of the outer loop do to the frame, rows `h0` to
`h0 + n - 1`. -/
theorem blendRows_spec (classes : List Int) (inW inH outW outH a sa : Nat) :
    ∀ (n h0 : Nat) (frame : List Nat), (h0 + n) * (outW * 3) ≤ frame.length →
      (∀ j w, j < n → w < outW → classIndex inW inH outW outH w (h0 + j) < classes.length) →
      ∃ out, blendRows classes inW inH outW outH a sa n h0 frame = some out ∧
        out.length = frame.length ∧
        (∀ i, i < h0 * (outW * 3) ∨ (h0 + n) * (outW * 3) ≤ i → out[i]? = frame[i]?) ∧
        (∀ j w k, j < n → w < outW → k < 3 → ∃ c orig,
          classes[classIndex inW inH outW outH w (h0 + j)]? = some c ∧
          frame[(h0 + j) * (outW * 3) + 3 * w + k]? = some orig ∧
          out[(h0 + j) * (outW * 3) + 3 * w + k]? =
            some (blendChannel a sa orig (maskColor k c))) := by
  intro n
  induction n with
  | zero =>
    intro h0 frame _ _
    exact ⟨frame, rfl, rfl, fun _ _ => rfl, fun j w k hj _ _ => absurd hj (Nat.not_lt_zero j)⟩
  | succ n ih =>
    intro h0 frame hlen hcls
    have es : (h0 + (n + 1)) * (outW * 3) = (h0 + 1 + n) * (outW * 3) := by
      rw [show h0 + (n + 1) = h0 + 1 + n by omega]
    have e1 : (h0 + 1) * (outW * 3) = h0 * (outW * 3) + 3 * outW := by ring
    have e2 : h0 * (outW * 3) + 3 * outW ≤ (h0 + 1 + n) * (outW * 3) := by
      rw [← e1]
      exact Nat.mul_le_mul_right _ (by omega)
    rw [es] at hlen
    obtain ⟨row, hrow, hrl, hrkeep, hrpix⟩ := blendRow_spec classes inW inH outW outH a sa h0
      outW 0 (h0 * (outW * 3)) frame (by omega)
      (fun j hj => by simpa using hcls 0 j (Nat.succ_pos n) hj)
    obtain ⟨out, hout, hl, hkeep, hpix⟩ := ih (h0 + 1) row (by rw [hrl]; exact hlen)
      (fun j w hj hw => by
        have := hcls (j + 1) w (by omega) hw
        rwa [show h0 + 1 + j = h0 + (j + 1) by omega])
    refine ⟨out, ?_, ?_, ?_, ?_⟩
    · rw [blendRows]
      simp only [hrow, Option.bind_eq_bind, Option.some_bind]
      exact hout
    · rw [hl, hrl]
    · intro i hi
      rw [es] at hi
      rw [hkeep i (by omega), hrkeep i (by omega)]
    · intro j w k hj hw hk
      cases j with
      | zero =>
        obtain ⟨c, orig, c1, c2, c3⟩ := hrpix w k hw hk
        refine ⟨c, orig, ?_, ?_, ?_⟩
        · simpa using c1
        · simpa using c2
        · simp only [Nat.add_zero] at c3 ⊢
          rw [hkeep _ (by omega)]
          simpa using c3
      | succ j =>
        obtain ⟨c, orig, c1, c2, c3⟩ := hpix j w k (by omega) hw hk
        have ej : h0 + (j + 1) = h0 + 1 + j := by omega
        have e3 : (h0 + 1 + j) * (outW * 3) = (h0 + 1) * (outW * 3) + j * (outW * 3) := by ring
        refine ⟨c, orig, ?_, ?_, ?_⟩
        · rwa [ej]
        · rw [ej, ← c2, hrkeep _ (by omega)]
        · rw [ej]
          exact c3

/-- The input-output relation of the embedded `blendSegMask` on a frame that
holds the `outW x outH` image, when every class-map read is in bounds: the call
returns, and byte `k` of pixel `(w, h)` is the blend of its old value with the
colour of the class at `classIndex`.  (The weights `weightA`, `weightSA` are
those of the source for `alpha` in `[0, 1]`; the claims below carry that
bound.) -/
theorem blendSegMask_spec (frame : List Nat) (classes : List Int)
    (inW inH outW outH alpha : Nat) (hlen : outH * (outW * 3) ≤ frame.length)
    (hcls : ∀ w h, w < outW → h < outH → classIndex inW inH outW outH w h < classes.length) :
    ∃ out, blendSegMask frame classes inW inH outW outH alpha = some out ∧
      out.length = frame.length ∧
      (∀ i, outH * (outW * 3) ≤ i → out[i]? = frame[i]?) ∧
      (∀ w h k, w < outW → h < outH → k < 3 → ∃ c orig,
        classes[classIndex inW inH outW outH w h]? = some c ∧
        frame[h * (outW * 3) + 3 * w + k]? = some orig ∧
        out[h * (outW * 3) + 3 * w + k]? =
          some (blendChannel (weightA alpha) (weightSA alpha) orig (maskColor k c))) := by
  obtain ⟨out, hout, hl, hkeep, hpix⟩ := blendRows_spec classes inW inH outW outH
    (weightA alpha) (weightSA alpha) outH 0 frame (by simpa using hlen)
    (fun j w hj hw => by simpa using hcls w j hw hj)
  refine ⟨out, hout, hl, fun i hi => hkeep i (Or.inr (by simpa using hi)), ?_⟩
  intro w h k hw hh hk
  simpa using hpix h w k hh hw hk

/-- Every byte of the `outW x outH` image is byte `k` of one pixel `(w, h)`. -/
theorem pixel_decomp (outW outH i : Nat) (hi : i < outH * (outW * 3)) :
    ∃ w h k, w < outW ∧ h < outH ∧ k < 3 ∧ i = h * (outW * 3) + 3 * w + k := by
  have hpos : 0 < outW * 3 := by
    rcases Nat.eq_zero_or_pos (outW * 3) with h0 | h0
    · rw [h0] at hi
      simp at hi
    · exact h0
  have hdm := Nat.div_add_mod i (outW * 3)
  have hm := Nat.mod_lt i hpos
  have hh : i / (outW * 3) < outH := Nat.div_lt_of_lt_mul (by rwa [Nat.mul_comm] at hi)
  refine ⟨i % (outW * 3) / 3, i / (outW * 3), i % (outW * 3) % 3, ?_, hh, ?_, ?_⟩
  · omega
  · omega
  · rw [Nat.mul_comm (i / (outW * 3))]
    omega

/-- The 32-bit wrap does not reach the low byte: the mask colour of channel `k`
is `(10 * (k + 1) * class_id) mod 256`. -/
theorem maskColor_eq (c : Int) :
    maskColor 0 c = ((10 * c) % 256).toNat ∧ maskColor 1 c = ((20 * c) % 256).toNat ∧
      maskColor 2 c = ((30 * c) % 256).toNat := by
  unfold maskColor wrap32
  norm_num
  refine ⟨?_, ?_, ?_⟩ <;> omega

theorem maskColor_lt (k : Nat) (c : Int) : maskColor k c < 256 := by
  unfold maskColor
  split <;> omega

/-- With weights `255` and `0` the blend returns the original byte. -/
theorem blendChannel_opaque (orig mask : Nat) (h : orig < 256) :
    blendChannel 255 0 orig mask = orig := by
  unfold blendChannel blendValue
  omega

/-- With weights `0` and `255` the blend returns the mask byte. -/
theorem blendChannel_mask (orig mask : Nat) (h : mask < 256) :
    blendChannel 0 255 orig mask = mask := by
  unfold blendChannel blendValue
  omega

/-- When the class map is at least as wide as it is high, every index read is
inside a map of `inW * inH` entries. -/
theorem classIndex_lt_of_le (inW inH outW outH w h : Nat) (hpos : 0 < inH) (hsq : inH ≤ inW)
    (hw : w < outW) (hh : h < outH) :
    classIndex inW inH outW outH w h < inW * inH := by
  show h * inH / outH * inH + w * inW / outW < inW * inH
  have h1 : h * inH / outH < inH :=
    Nat.div_lt_of_lt_mul (Nat.mul_lt_mul_of_pos_right hh hpos)
  have h2 : w * inW / outW < inW :=
    Nat.div_lt_of_lt_mul (Nat.mul_lt_mul_of_pos_right hw (by omega))
  obtain ⟨d, rfl⟩ : ∃ d, inW = inH + d := ⟨inW - inH, by omega⟩
  have h3 : (h * inH / outH + 1) * inH ≤ inH * inH := Nat.mul_le_mul_right _ h1
  have h4 : (inH + d) * inH = inH * inH + d * inH := by ring
  have h5 : (h * inH / outH + 1) * inH = h * inH / outH * inH + inH := by ring
  have h6 : d ≤ d * inH := Nat.le_mul_of_pos_right d hpos
  omega

/-! ## The claims about `blendSegMask` -/

/-- C1, as stated, fails on the end-to-end scenario of the specification: with
`alpha = 0.5` the code truncates `127.5` to `a = 127` and `sa = 127`, so the
red channel of the first pixel (class 0, original value 128) is written as
`(128*127 + 0*127) / 255 = 63`, whereas the stated formula
`round((128*128 + 0*127) / 255)` gives `64`. -/
theorem C1_counterexample :
    (blendSegMask (List.replicate 48 128) [0, 1, 2, 3] 2 2 4 4 (2 ^ 148)).bind
        (fun out => out[0]?) = some 63 ∧
      specBlend (2 ^ 148) 128 (maskColor 0 0) = 64 ∧
      (blendSegMask (List.replicate 48 128) [0, 1, 2, 3] 2 2 4 4 (2 ^ 148)).bind
        (fun out => out[0]?) ≠ some (specBlend (2 ^ 148) 128 (maskColor 0 0)) := by
  decide!

/-- C1 (amended): for every `alpha` in `[0, 1]`, on a frame holding the
`outW x outH` image and with all class-map reads in bounds, `blendSegMask`
returns, and every channel it writes equals
`floor((orig*a + classColor*sa) / 255) mod 256`, where `a = weightA alpha` is
the binary32 product `alpha * 255` truncated to 8 bits and `sa = weightSA alpha`
is the binary32 value `(1 - alpha) * 255` truncated to 8 bits.  In particular, for the class map
`[[0,1],[2,3]]` rendered onto the 4x4 frame of bytes 128 with `alpha = 0.5`,
`a = sa = 127` and every output channel equals
`floor((128*127 + classColor*127) / 255)` for the class of its quadrant. -/
theorem C1_blend_truncates (frame : List Nat) (classes : List Int)
    (inW inH outW outH alpha : Nat) (halpha : alpha ≤ f32One)
    (hlen : outH * (outW * 3) ≤ frame.length)
    (hcls : ∀ w h, w < outW → h < outH → classIndex inW inH outW outH w h < classes.length) :
    (∃ out, blendSegMask frame classes inW inH outW outH alpha = some out ∧
      ∀ w h k, w < outW → h < outH → k < 3 → ∃ c orig,
        classes[classIndex inW inH outW outH w h]? = some c ∧
        frame[h * (outW * 3) + 3 * w + k]? = some orig ∧
        out[h * (outW * 3) + 3 * w + k]? =
          some ((orig * weightA alpha + maskColor k c * weightSA alpha) / 255 % 256)) ∧
    (weightA (2 ^ 148) = 127 ∧ weightSA (2 ^ 148) = 127 ∧
      ∀ w < 4, ∀ h < 4, ∀ k < 3,
        (blendSegMask (List.replicate 48 128) [0, 1, 2, 3] 2 2 4 4 (2 ^ 148)).bind
            (fun out => out[h * (4 * 3) + 3 * w + k]?) =
          some ((128 * 127 + maskColor k ((2 * (h / 2) + w / 2 : Nat) : Int) * 127) / 255)) := by
  have _ := halpha
  refine ⟨?_, ?_⟩
  · obtain ⟨out, hout, _, _, hpix⟩ :=
      blendSegMask_spec frame classes inW inH outW outH alpha hlen hcls
    exact ⟨out, hout, hpix⟩
  · decide!

/-- C1 (amended), applied to a 2x1 image over a 2x1 class map with the value
`alpha = 0.4f` that `RunInference` passes (`a = 102`, `sa = 153`). -/
theorem C1_blend_truncates_witness :
    ∃ out, blendSegMask [10, 20, 30, 40, 50, 60] [3, 5] 2 1 2 1 (13421773 * 2 ^ 124) = some out ∧
      ∀ w h k, w < 2 → h < 1 → k < 3 → ∃ c orig,
        [(3 : Int), 5][classIndex 2 1 2 1 w h]? = some c ∧
        [10, 20, 30, 40, 50, 60][h * (2 * 3) + 3 * w + k]? = some orig ∧
        out[h * (2 * 3) + 3 * w + k]? =
          some ((orig * weightA (13421773 * 2 ^ 124)
            + maskColor k c * weightSA (13421773 * 2 ^ 124)) / 255 % 256) :=
  (C1_blend_truncates [10, 20, 30, 40, 50, 60] [3, 5] 2 1 2 1 (13421773 * 2 ^ 124)
    (by decide) (by decide)
    (fun w h hw hh => by
      have h0 : h = 0 := by omega
      subst h0
      have hw2 : w = 0 ∨ w = 1 := by omega
      rcases hw2 with rfl | rfl <;> decide)).1

/-- C2, evaluated on a class map of width 1 and height 2 (two entries) blended
onto a 1x2 frame: for the second pixel `(w, h) = (0, 1)` the code reads index
`1 * inDataHeight + 0 = 2`, which is outside the two-entry map, and the call
does not return a frame. -/
theorem C2_index_out_of_bounds :
    classIndex 1 2 1 2 0 1 = 2 ∧ ¬ (classIndex 1 2 1 2 0 1 < 1 * 2) ∧
      ([7, 9] : List Int).length = 1 * 2 ∧
      blendSegMask [128, 128, 128, 128, 128, 128] [7, 9] 1 2 1 2 (13421773 * 2 ^ 124) = none := by
  decide!

/-- C3: for every `alpha` in `[0, 1]`, on a frame holding the `outW x outH`
image, whenever the reads at index
`floor(h*inH/outH) * inH + floor(w*inW/outW)` are inside the class map,
`blendSegMask` returns and the three channels of every output pixel `(w, h)`
are blended with the colour of the class id stored at that index: the row
stride is `inH`. -/
theorem C3_row_stride_is_height (frame : List Nat) (classes : List Int)
    (inW inH outW outH alpha : Nat) (halpha : alpha ≤ f32One)
    (hlen : outH * (outW * 3) ≤ frame.length)
    (hcls : ∀ w h, w < outW → h < outH →
      h * inH / outH * inH + w * inW / outW < classes.length) :
    ∃ out, blendSegMask frame classes inW inH outW outH alpha = some out ∧
      ∀ w h, w < outW → h < outH → ∃ class_id,
        classes[h * inH / outH * inH + w * inW / outW]? = some class_id ∧
        ∀ k, k < 3 → ∃ orig, frame[h * (outW * 3) + 3 * w + k]? = some orig ∧
          out[h * (outW * 3) + 3 * w + k]? =
            some (blendChannel (weightA alpha) (weightSA alpha) orig (maskColor k class_id)) := by
  have _ := halpha
  obtain ⟨out, hout, _, _, hpix⟩ :=
    blendSegMask_spec frame classes inW inH outW outH alpha hlen hcls
  refine ⟨out, hout, fun w h hw hh => ?_⟩
  have hc := hcls w h hw hh
  refine ⟨classes[h * inH / outH * inH + w * inW / outW], List.getElem?_eq_getElem hc, ?_⟩
  intro k hk
  obtain ⟨c, orig, e1, e2, e3⟩ := hpix w h k hw hh hk
  have e1b : classes[h * inH / outH * inH + w * inW / outW]? = some c := e1
  rw [List.getElem?_eq_getElem hc] at e1b
  cases e1b
  exact ⟨orig, e2, e3⟩

/-- C3 on a class map of width 3 and height 2 (six distinct entries) blended
onto a 3x2 frame with `alpha = 0.5`: in the second row `sh = 1`, and the reads
are at `1 * 2 + sw = 2, 3, 4`, where a stride of the width would read
`3, 4, 5`. -/
theorem C3_row_stride_is_height_witness :
    ∃ out, blendSegMask [1, 2, 3, 4, 5, 6, 7, 8, 9, 10, 11, 12, 13, 14, 15, 16, 17, 18]
        [4, 5, 6, 7, 8, 9] 3 2 3 2 (2 ^ 148) = some out ∧
      ∀ w h, w < 3 → h < 2 → ∃ class_id,
        [(4 : Int), 5, 6, 7, 8, 9][h * 2 / 2 * 2 + w * 3 / 3]? = some class_id ∧
        ∀ k, k < 3 → ∃ orig,
          [1, 2, 3, 4, 5, 6, 7, 8, 9, 10, 11, 12, 13, 14, 15, 16, 17, 18][h * (3 * 3) + 3 * w + k]?
            = some orig ∧
          out[h * (3 * 3) + 3 * w + k]? =
            some (blendChannel (weightA (2 ^ 148)) (weightSA (2 ^ 148)) orig
              (maskColor k class_id)) :=
  C3_row_stride_is_height [1, 2, 3, 4, 5, 6, 7, 8, 9, 10, 11, 12, 13, 14, 15, 16, 17, 18]
    [4, 5, 6, 7, 8, 9] 3 2 3 2 (2 ^ 148) (by decide) (by decide)
    (fun w h hw hh => by
      simp only [List.length_cons, List.length_nil]
      omega)

/-- C4: with `alpha = 1` (`a = 255`, `sa = 0`), on a frame of bytes holding the
`outW x outH` image and with all class-map reads in bounds, `blendSegMask`
returns the frame it was given, byte for byte. -/
theorem C4_alpha_one_identity (frame : List Nat) (classes : List Int)
    (inW inH outW outH : Nat) (hbytes : ∀ b ∈ frame, b < 256)
    (hlen : outH * (outW * 3) ≤ frame.length)
    (hcls : ∀ w h, w < outW → h < outH → classIndex inW inH outW outH w h < classes.length) :
    blendSegMask frame classes inW inH outW outH f32One = some frame := by
  obtain ⟨out, hout, hl, hkeep, hpix⟩ :=
    blendSegMask_spec frame classes inW inH outW outH f32One hlen hcls
  rw [hout]
  congr 1
  apply List.ext_getElem?
  intro i
  by_cases hi : outH * (outW * 3) ≤ i
  · exact hkeep i hi
  · obtain ⟨w, h, k, hw, hh, hk, rfl⟩ := pixel_decomp outW outH i (by omega)
    obtain ⟨c, orig, _, e2, e3⟩ := hpix w h k hw hh hk
    rw [e3, e2, weightA_one, weightSA_one,
      blendChannel_opaque orig _ (hbytes orig (List.getElem?_mem e2))]

/-- C4 on a 2x1 frame over a 2x1 class map. -/
theorem C4_alpha_one_identity_witness :
    blendSegMask [10, 20, 30, 40, 50, 255] [3, 5] 2 1 2 1 f32One
      = some [10, 20, 30, 40, 50, 255] :=
  C4_alpha_one_identity [10, 20, 30, 40, 50, 255] [3, 5] 2 1 2 1 (by decide) (by decide)
    (fun w h hw hh => by
      have h0 : h = 0 := by omega
      subst h0
      have hw2 : w = 0 ∨ w = 1 := by omega
      rcases hw2 with rfl | rfl <;> decide)

/-- C5: with `alpha = 0` (`a = 0`, `sa = 255`), on a frame that is the
`outW x outH` image and with all class-map reads in bounds, `blendSegMask`
returns a frame whose every pixel `(w, h)` is
`((10*c) mod 256, (20*c) mod 256, (30*c) mod 256)` for the class id `c` read at
the pixel's class-map index, and any other frame of the same size gives the
same output. -/
theorem C5_alpha_zero_mask (frame frame2 : List Nat) (classes : List Int)
    (inW inH outW outH : Nat) (hlen : frame.length = outH * (outW * 3))
    (hlen2 : frame2.length = outH * (outW * 3))
    (hcls : ∀ w h, w < outW → h < outH → classIndex inW inH outW outH w h < classes.length) :
    ∃ out, blendSegMask frame classes inW inH outW outH 0 = some out ∧
      blendSegMask frame2 classes inW inH outW outH 0 = some out ∧
      ∀ w h, w < outW → h < outH → ∃ c,
        classes[classIndex inW inH outW outH w h]? = some c ∧
        out[h * (outW * 3) + 3 * w]? = some ((10 * c) % 256).toNat ∧
        out[h * (outW * 3) + 3 * w + 1]? = some ((20 * c) % 256).toNat ∧
        out[h * (outW * 3) + 3 * w + 2]? = some ((30 * c) % 256).toNat := by
  obtain ⟨out, hout, hl, _, hpix⟩ :=
    blendSegMask_spec frame classes inW inH outW outH 0 (by omega) hcls
  obtain ⟨out2, hout2, hl2, _, hpix2⟩ :=
    blendSegMask_spec frame2 classes inW inH outW outH 0 (by omega) hcls
  have hcol : ∀ (o f : List Nat), (∀ w h k, w < outW → h < outH → k < 3 → ∃ c orig,
        classes[classIndex inW inH outW outH w h]? = some c ∧
        f[h * (outW * 3) + 3 * w + k]? = some orig ∧
        o[h * (outW * 3) + 3 * w + k]? =
          some (blendChannel (weightA 0) (weightSA 0) orig (maskColor k c))) →
      ∀ w h k, w < outW → h < outH → k < 3 → ∃ c,
        classes[classIndex inW inH outW outH w h]? = some c ∧
        o[h * (outW * 3) + 3 * w + k]? = some (maskColor k c) := by
    intro o f hp w h k hw hh hk
    obtain ⟨c, orig, e1, _, e3⟩ := hp w h k hw hh hk
    rw [weightA_zero, weightSA_zero, blendChannel_mask orig _ (maskColor_lt k c)] at e3
    exact ⟨c, e1, e3⟩
  have hc1 := hcol out frame hpix
  have hc2 := hcol out2 frame2 hpix2
  have heq : out2 = out := by
    apply List.ext_getElem?
    intro i
    by_cases hi : outH * (outW * 3) ≤ i
    · rw [List.getElem?_eq_none (by omega), List.getElem?_eq_none (by omega)]
    · obtain ⟨w, h, k, hw, hh, hk, rfl⟩ := pixel_decomp outW outH i (by omega)
      obtain ⟨c, e1, e3⟩ := hc1 w h k hw hh hk
      obtain ⟨c2, f1, f3⟩ := hc2 w h k hw hh hk
      rw [e1] at f1
      cases f1
      rw [e3, f3]
  refine ⟨out, hout, by rw [hout2, heq], fun w h hw hh => ?_⟩
  obtain ⟨c, e1, e3⟩ := hc1 w h 0 hw hh (by omega)
  obtain ⟨c1, f1, f3⟩ := hc1 w h 1 hw hh (by omega)
  obtain ⟨c2, g1, g3⟩ := hc1 w h 2 hw hh (by omega)
  rw [e1] at f1 g1
  cases f1
  cases g1
  obtain ⟨m0, m1, m2⟩ := maskColor_eq c
  exact ⟨c, e1, by rw [← m0]; simpa using e3, by rw [← m1]; exact f3, by rw [← m2]; exact g3⟩

/-- C5 on two 2x1 frames over the class map `[3, -1]`. -/
theorem C5_alpha_zero_mask_witness :
    ∃ out, blendSegMask [10, 20, 30, 40, 50, 60] [3, -1] 2 1 2 1 0 = some out ∧
      blendSegMask [0, 0, 0, 255, 255, 255] [3, -1] 2 1 2 1 0 = some out ∧
      ∀ w h, w < 2 → h < 1 → ∃ c,
        [(3 : Int), -1][classIndex 2 1 2 1 w h]? = some c ∧
        out[h * (2 * 3) + 3 * w]? = some ((10 * c) % 256).toNat ∧
        out[h * (2 * 3) + 3 * w + 1]? = some ((20 * c) % 256).toNat ∧
        out[h * (2 * 3) + 3 * w + 2]? = some ((30 * c) % 256).toNat :=
  C5_alpha_zero_mask [10, 20, 30, 40, 50, 60] [0, 0, 0, 255, 255, 255] [3, -1] 2 1 2 1
    (by decide) (by decide)
    (fun w h hw hh => by
      have h0 : h = 0 := by omega
      subst h0
      have hw2 : w = 0 ∨ w = 1 := by omega
      rcases hw2 with rfl | rfl <;> decide)

/-- C6: for every `alpha` in `[0, 1]`, every original channel value in
`0..255`, every class id and every channel, the value
`(orig*a + classColor*sa) / 255` computed before the store is at most 255, so
the 8-bit store leaves it unchanged; the reason is that the two weights add up
to at most 255. -/
theorem C6_channel_in_range (alpha orig k : Nat) (class_id : Int) (halpha : alpha ≤ f32One)
    (horig : orig ≤ 255) :
    weightA alpha + weightSA alpha ≤ 255 ∧
      blendValue (weightA alpha) (weightSA alpha) orig (maskColor k class_id) ≤ 255 ∧
      blendChannel (weightA alpha) (weightSA alpha) orig (maskColor k class_id) =
        blendValue (weightA alpha) (weightSA alpha) orig (maskColor k class_id) := by
  have hsum := weights_sum_le alpha halpha
  have hm := maskColor_lt k class_id
  have hv : blendValue (weightA alpha) (weightSA alpha) orig (maskColor k class_id) ≤ 255 := by
    unfold blendValue
    have h1 : orig * weightA alpha ≤ 255 * weightA alpha := Nat.mul_le_mul_right _ horig
    have h2 : maskColor k class_id * weightSA alpha ≤ 255 * weightSA alpha :=
      Nat.mul_le_mul_right _ (by omega)
    omega
  refine ⟨hsum, hv, ?_⟩
  unfold blendChannel
  exact Nat.mod_eq_of_lt (by omega)

/-- C6 at `alpha = 0.4f`, the value `RunInference` passes, for a white channel
and class 25 (mask byte 250). -/
theorem C6_channel_in_range_witness :
    weightA (13421773 * 2 ^ 124) + weightSA (13421773 * 2 ^ 124) ≤ 255 ∧
      blendValue (weightA (13421773 * 2 ^ 124)) (weightSA (13421773 * 2 ^ 124)) 255
        (maskColor 0 25) ≤ 255 ∧
      blendChannel (weightA (13421773 * 2 ^ 124)) (weightSA (13421773 * 2 ^ 124)) 255
          (maskColor 0 25) =
        blendValue (weightA (13421773 * 2 ^ 124)) (weightSA (13421773 * 2 ^ 124)) 255
          (maskColor 0 25) :=
  C6_channel_in_range (13421773 * 2 ^ 124) 255 0 25 (by decide) (by decide)

/-- C10: two class ids get the same mask colour (all three channels) exactly
when they are congruent modulo 128; this holds for all integers, in particular
for all 32-bit ids. -/
theorem C10_color_period_128 (c c2 : Int) :
    (maskColor 0 c = maskColor 0 c2 ∧ maskColor 1 c = maskColor 1 c2 ∧
      maskColor 2 c = maskColor 2 c2) ↔ c % 128 = c2 % 128 := by
  obtain ⟨a0, a1, a2⟩ := maskColor_eq c
  obtain ⟨b0, b1, b2⟩ := maskColor_eq c2
  rw [a0, a1, a2, b0, b1, b2]
  constructor
  · rintro ⟨h0, _, _⟩
    have p1 : 0 ≤ 10 * c % 256 := Int.emod_nonneg _ (by norm_num)
    have p2 : 0 ≤ 10 * c2 % 256 := Int.emod_nonneg _ (by norm_num)
    have h1 : 10 * c % 256 = 10 * c2 % 256 := by
      rw [← Int.toNat_of_nonneg p1, ← Int.toNat_of_nonneg p2, h0]
    omega
  · intro h
    have h1 : 10 * c % 256 = 10 * c2 % 256 := by omega
    have h2 : 20 * c % 256 = 20 * c2 % 256 := by omega
    have h3 : 30 * c % 256 = 30 * c2 % 256 := by omega
    rw [h1, h2, h3]
    exact ⟨rfl, rfl, rfl⟩

/-! ## The loops of `RunInference` -/

theorem forRange_filter (p : Event → Bool) (body : Nat → List Event) :
    ∀ n i, (forRange n i body).filter p = forRange n i (fun j => (body j).filter p) := by
  intro n
  induction n with
  | zero => intro i; rfl
  | succ n ih =>
    intro i
    simp only [forRange, List.filter_append, ih]

theorem forRange_nil (body : Nat → List Event) (hb : ∀ j, body j = []) :
    ∀ n i, forRange n i body = [] := by
  intro n
  induction n with
  | zero => intro i; rfl
  | succ n ih =>
    intro i
    simp only [forRange, hb, ih, List.append_nil]

theorem forRange_single (body : Nat → List Event) (e : Event) (hb : ∀ j, body j = [e]) :
    ∀ n i, forRange n i body = List.replicate n e := by
  intro n
  induction n with
  | zero => intro i; rfl
  | succ n ih =>
    intro i
    simp only [forRange, hb, ih, List.replicate_succ, List.singleton_append]

theorem acquirePhase_filter_isTiming (s : Settings) (rt : Runtime) :
    (acquirePhase s rt).filter Event.isTiming = [] := by
  have hb : ∀ alloc : Nat → Option Nat, ∀ j, (allocBody alloc j).filter Event.isTiming = [] := by
    intro alloc j
    unfold allocBody
    cases alloc j <;> rfl
  unfold acquirePhase
  split
  · rw [List.filter_append, forRange_filter, forRange_filter,
      forRange_nil _ (hb rt.allocIn), forRange_nil _ (hb rt.allocOut)]
    rfl
  · rfl

theorem releasePhase_filter_isTiming (s : Settings) (rt : Runtime) :
    (releasePhase s rt).filter Event.isTiming = [] := by
  have hb : ∀ alloc : Nat → Option Nat, ∀ j, (freeBody alloc j).filter Event.isTiming = [] := by
    intro alloc j
    unfold freeBody
    cases alloc j <;> rfl
  unfold releasePhase
  split
  · rw [List.filter_append, forRange_filter, forRange_filter,
      forRange_nil _ (hb rt.allocIn), forRange_nil _ (hb rt.allocOut)]
    rfl
  · rfl

theorem forRange_acquired_eq_released (alloc : Nat → Option Nat) :
    ∀ n i, ((forRange n i (allocBody alloc)).filter Event.isAcquired).length =
      ((forRange n i (freeBody alloc)).filter Event.isRelease).length := by
  intro n
  induction n with
  | zero => intro i; rfl
  | succ n ih =>
    intro i
    simp only [forRange, List.filter_append, List.length_append, ih]
    congr 1
    unfold allocBody freeBody
    cases alloc i <;> rfl

/-- A run that reaches its last line (supported input type, matching image)
releases as many regions as it acquired, whether or not acquisitions or
invocations failed. -/
theorem RunInference_completed_balanced (s : Settings) (rt : Runtime)
    (htype : rt.inputType ≠ TfLiteType.other) (hch : rt.channelsOk = true) :
    ((RunInference s rt).filter Event.isRelease).length =
      ((RunInference s rt).filter Event.isAcquired).length := by
  have hrun : RunInference s rt =
      acquirePhase s rt ++ [Event.preprocImage] ++ invokePhase s rt ++ releasePhase s rt := by
    unfold RunInference
    cases ht : rt.inputType with
    | other => exact absurd ht htype
    | kTfLiteFloat32 => simp only [hch, if_true]
    | kTfLiteUInt8 => simp only [hch, if_true]
  have hinvA : (invokePhase s rt).filter Event.isAcquired = [] := by
    have hb : ∀ base j, (invokeBody rt.invokeOk base j).filter Event.isAcquired = [] := by
      intro base j
      unfold invokeBody
      split <;> rfl
    unfold invokePhase
    simp only [List.filter_append, forRange_filter, forRange_nil _ (hb _)]
    rfl
  have hinvR : (invokePhase s rt).filter Event.isRelease = [] := by
    have hb : ∀ base j, (invokeBody rt.invokeOk base j).filter Event.isRelease = [] := by
      intro base j
      unfold invokeBody
      split <;> rfl
    unfold invokePhase
    simp only [List.filter_append, forRange_filter, forRange_nil _ (hb _)]
    rfl
  have hacqR : (acquirePhase s rt).filter Event.isRelease = [] := by
    have hb : ∀ alloc : Nat → Option Nat, ∀ j,
        (allocBody alloc j).filter Event.isRelease = [] := by
      intro alloc j
      unfold allocBody
      cases alloc j <;> rfl
    unfold acquirePhase
    split
    · rw [List.filter_append, forRange_filter, forRange_filter,
        forRange_nil _ (hb rt.allocIn), forRange_nil _ (hb rt.allocOut)]
      rfl
    · rfl
  have hrelA : (releasePhase s rt).filter Event.isAcquired = [] := by
    have hb : ∀ alloc : Nat → Option Nat, ∀ j,
        (freeBody alloc j).filter Event.isAcquired = [] := by
      intro alloc j
      unfold freeBody
      cases alloc j <;> rfl
    unfold releasePhase
    split
    · rw [List.filter_append, forRange_filter, forRange_filter,
        forRange_nil _ (hb rt.allocIn), forRange_nil _ (hb rt.allocOut)]
      rfl
    · rfl
  have hbal : ((releasePhase s rt).filter Event.isRelease).length =
      ((acquirePhase s rt).filter Event.isAcquired).length := by
    unfold releasePhase acquirePhase
    split
    · simp only [List.filter_append, List.length_append, forRange_acquired_eq_released]
    · rfl
  have hpA : List.filter Event.isAcquired [Event.preprocImage] = [] := rfl
  have hpR : List.filter Event.isRelease [Event.preprocImage] = [] := rfl
  rw [hrun]
  simp only [List.filter_append, List.length_append, hinvA, hinvR, hacqR, hrelA, hpA, hpR,
    List.length_nil, hbal]
  omega

/-! ## The claims about `RunInference` -/

/-- C7, as stated, fails for a warmup count of 2 and a timed count of 1: the
warm-up loop is guarded by `loop_count > 1`, so the run makes one invocation
in all (the timed one), not `2 + 1`. -/
theorem C7_counterexample :
    (RunInference ⟨0, 1, 2⟩
        ⟨1, 1, fun _ => none, fun _ => none, TfLiteType.kTfLiteFloat32, true, fun _ => true⟩).filter
        Event.isTiming = [Event.gettimeofday, Event.invoke true, Event.gettimeofday] ∧
      ((RunInference ⟨0, 1, 2⟩
        ⟨1, 1, fun _ => none, fun _ => none, TfLiteType.kTfLiteFloat32, true, fun _ => true⟩).filter
        Event.isInvoke).length ≠ 2 + 1 := by
  decide

/-- C7 (amended): for every warmup count `w` and timed count `n`, a run with a
supported input type and a matching image in which no invocation fails makes
exactly `w` untimed invocations when `n > 1` and none when `n <= 1`, then reads
the clock, makes exactly `n` invocations and reads the clock again; these are
all the invocations and clock readings of the run. -/
theorem C7_warmup_guarded (w n : Nat) (device_mem : Int) (rt : Runtime)
    (htype : rt.inputType ≠ TfLiteType.other) (hch : rt.channelsOk = true)
    (hok : ∀ k, rt.invokeOk k = true) :
    (RunInference ⟨device_mem, n, w⟩ rt).filter Event.isTiming =
      List.replicate (if 1 < n then w else 0) (Event.invoke true) ++ [Event.gettimeofday]
        ++ List.replicate n (Event.invoke true) ++ [Event.gettimeofday] := by
  have hbody : ∀ base j, invokeBody rt.invokeOk base j = [Event.invoke true] := by
    intro base j
    unfold invokeBody
    rw [hok]
    rfl
  have hwarm : warmupRuns ⟨device_mem, n, w⟩ = if 1 < n then w else 0 := by
    unfold warmupRuns
    simp only [Int.toNat_ofNat]
    by_cases h1 : 1 < n
    · rw [if_pos h1, if_pos (by exact_mod_cast h1)]
    · rw [if_neg h1, if_neg (by exact_mod_cast h1)]
  have hinv : (invokePhase ⟨device_mem, n, w⟩ rt).filter Event.isTiming =
      List.replicate (if 1 < n then w else 0) (Event.invoke true) ++ [Event.gettimeofday]
        ++ List.replicate n (Event.invoke true) ++ [Event.gettimeofday] := by
    unfold invokePhase
    rw [hwarm, forRange_single _ _ (hbody 0), forRange_single _ _ (hbody _)]
    simp only [Int.toNat_ofNat, List.filter_append, List.filter_replicate]
    rfl
  have hrun : RunInference ⟨device_mem, n, w⟩ rt =
      acquirePhase ⟨device_mem, n, w⟩ rt ++ [Event.preprocImage]
        ++ invokePhase ⟨device_mem, n, w⟩ rt ++ releasePhase ⟨device_mem, n, w⟩ rt := by
    unfold RunInference
    cases ht : rt.inputType with
    | other => exact absurd ht htype
    | kTfLiteFloat32 => simp only [hch, if_true]
    | kTfLiteUInt8 => simp only [hch, if_true]
  rw [hrun, List.filter_append, List.filter_append, List.filter_append,
    acquirePhase_filter_isTiming, releasePhase_filter_isTiming, hinv]
  have hp : List.filter Event.isTiming [Event.preprocImage] = [] := rfl
  rw [hp, List.append_nil, List.nil_append, List.nil_append]

/-- C7 (amended) on a zero-copy run with 2 warm-up and 3 timed invocations. -/
theorem C7_warmup_guarded_witness :
    (RunInference ⟨1, 3, 2⟩
        ⟨1, 1, fun _ => some 64, fun _ => some 128, TfLiteType.kTfLiteUInt8, true,
          fun _ => true⟩).filter Event.isTiming =
      List.replicate (if 1 < 3 then 2 else 0) (Event.invoke true) ++ [Event.gettimeofday]
        ++ List.replicate 3 (Event.invoke true) ++ [Event.gettimeofday] :=
  C7_warmup_guarded 2 3 1
    ⟨1, 1, fun _ => some 64, fun _ => some 128, TfLiteType.kTfLiteUInt8, true, fun _ => true⟩
    (by decide) rfl (fun _ => rfl)

/-- C8, evaluated on a run with one warm-up and two timed invocations whose
first invocation fails: the failure is only logged (`LOG(FATAL)` is
`std::cerr`), the two timed invocations are still made, and the frame is
blended and written. -/
theorem C8_failed_invoke_continues :
    RunInference ⟨0, 2, 1⟩
        ⟨1, 1, fun _ => none, fun _ => none, TfLiteType.kTfLiteFloat32, true, fun k => k != 0⟩ =
      [Event.preprocImage, Event.invoke false, Event.logFatal, Event.gettimeofday,
        Event.invoke true, Event.invoke true, Event.gettimeofday, Event.blendSegMask,
        Event.imwrite] := by
  decide

/-- C9, evaluated on a zero-copy run with one input and one output whose
acquisitions both succeed and whose input tensor has an unsupported type: the
run ends at `exit(-1)` after two successful acquisitions and no release. -/
theorem C9_exit_leaks_shared_mem :
    RunInference ⟨1, 1, 0⟩
        ⟨1, 1, fun _ => some 64, fun _ => some 128, TfLiteType.other, true, fun _ => true⟩ =
      [Event.allocSharedMem (some 64), Event.setCustomAllocation (some 64),
        Event.allocSharedMem (some 128), Event.setCustomAllocation (some 128),
        Event.logFatal, Event.exit] ∧
    ((RunInference ⟨1, 1, 0⟩
        ⟨1, 1, fun _ => some 64, fun _ => some 128, TfLiteType.other, true, fun _ => true⟩).filter
        Event.isAcquired).length = 2 ∧
    ((RunInference ⟨1, 1, 0⟩
        ⟨1, 1, fun _ => some 64, fun _ => some 128, TfLiteType.other, true, fun _ => true⟩).filter
        Event.isRelease).length = 0 := by
  decide

end tflite.seg_image
